import Mathlib

/-!
# Verification of the hdfs configuration module (`conf.go`)

Shallow embedding of the single source file `conf.go` of the repository.
Go strings are modelled as Lean `String` (character-wise operations on
`String.data` coincide with Go's byte-wise operations for the ASCII keys
and values involved, and UTF-8 byte order agrees with code-point order in
general).  The Go map `HadoopConf = map[string]string` is modelled as an
association list whose update operation `mapInsert` implements the Go map
assignment `m[k] = v` (replace the entry when the key is present,
otherwise add it); lookups take the last matching entry, which agrees
with map semantics on lists produced by `mapInsert`.  The iteration order
of a Go map is unspecified, so the list order carries no information used
by any theorem below.  File input is modelled by passing, for each of the
two configuration files, the outcome of reading and XML-unmarshalling it:
`none` when the read or the parse fails, `some props` otherwise.
-/

/-- `Property` from `conf.go`: one `<property>` element, a name/value pair. -/
structure Property where
  name : String
  value : String
deriving DecidableEq, Repr

/-- `HadoopConf` from `conf.go` (`map[string]string`), modelled as an
association list; see the module docstring. -/
abbrev HadoopConf := List (String × String)

/-- Go `strings.HasPrefix(s, prefix)`, character-wise. -/
def hasPrefix (s pfx : String) : Bool :=
  pfx.data.isPrefixOf s.data

/-- Go `strings.TrimPrefix(s, prefix)`: remove one leading copy of
`prefix` when present, otherwise return `s` unchanged. -/
def trimPrefix (s pfx : String) : String :=
  if hasPrefix s pfx then ⟨s.data.drop pfx.data.length⟩ else s

/-- Lexicographic comparison of character lists, as Go compares strings
(`s1 <= s2` byte-wise; on UTF-8 data byte order and code-point order
agree). -/
def charListLe : List Char → List Char → Bool
  | [], _ => true
  | _ :: _, [] => false
  | a :: as, b :: bs =>
    if a.toNat = b.toNat then charListLe as bs
    else decide (a.toNat < b.toNat)

/-- Go string comparison `a <= b`, used by `sort.Strings`. -/
def strLe (a b : String) : Bool :=
  charListLe a.data b.data

/-- The ordering relation of `sort.Strings`: ascending lexicographic
string order. -/
def StrLeR (a b : String) : Prop :=
  strLe a b = true

instance : DecidableRel StrLeR := fun a b => by
  unfold StrLeR
  infer_instance

/-- The Go map assignment `m[k] = v`: overwrite the entry for `k` when one
exists, otherwise add the pair. -/
def mapInsert (m : HadoopConf) (k v : String) : HadoopConf :=
  if (List.any m fun kv => kv.1 = k) then
    List.map (fun kv => if kv.1 = k then (k, v) else kv) m
  else
    m ++ [(k, v)]

/-- Go map lookup `m[k]`: the last matching entry wins (on lists built by
`mapInsert` there is at most one). -/
def lookupConf (m : HadoopConf) (k : String) : Option String :=
  match m with
  | [] => none
  | kv :: rest =>
    match lookupConf rest k with
    | some v => some v
    | none => if kv.1 = k then some kv.2 else none

/-- The body of the per-file loop of `LoadHadoopConf`:
`for _, prop := range pList.Property { hadoopConf[prop.Name] = prop.Value }`. -/
def loadProps (m : HadoopConf) (props : List Property) : HadoopConf :=
  props.foldl (fun acc p => mapInsert acc p.name p.value) m

/-- One iteration of the file loop of `LoadHadoopConf`: a file whose read
(`ioutil.ReadFile`) or parse (`xml.Unmarshal`) failed is skipped
(`continue`) and contributes nothing; otherwise its properties are merged. -/
def loadFile (m : HadoopConf) (file : Option (List Property)) : HadoopConf :=
  match file with
  | none => m
  | some props => loadProps m props

/-- `LoadHadoopConf` from `conf.go`, with the read-and-parse outcome of
`core-site.xml` and `hdfs-site.xml` passed in (in that order, as in the
source's `[]string{"core-site.xml", "hdfs-site.xml"}` loop).  The function
is total: it returns a configuration, never an error. -/
def LoadHadoopConf (coreSite hdfsSite : Option (List Property)) : HadoopConf :=
  loadFile (loadFile [] coreSite) hdfsSite

/-- The two error values `errUnresolvedDefaultFS` ("no defaultFS in
configuration") and `errUnresolvedNamenode` ("no namenode address in
configuration") from `conf.go`. -/
inductive NNError where
  | unresolvedDefaultFS
  | unresolvedNamenode
deriving DecidableEq, Repr

/-- The state `Namenodes` operates on: the receiver configuration and the
package-level variable `defaultFS`. -/
structure ConfState where
  conf : HadoopConf
  defaultFS : String

/-- The scan `for key, value := range conf { if key == "fs.defaultFS" {
defaultFsName = strings.TrimPrefix(value, "hdfs://") } }` of `Namenodes`:
the stripped value of the `fs.defaultFS` entry, or `""` when absent. -/
def scanDefaultFS (conf : HadoopConf) : String :=
  conf.foldl
    (fun acc kv => if kv.1 = "fs.defaultFS" then trimPrefix kv.2 "hdfs://" else acc)
    ""

/-- The lookup key prefix `fmt.Sprintf("dfs.namenode.rpc-address.%s.",
defaultFsName)` of `Namenodes`. -/
def nnPrefix (name : String) : String :=
  "dfs.namenode.rpc-address." ++ name ++ "."

/-- The set `nns` of `Namenodes` (`map[string]bool`): the distinct
configuration values whose key starts with `nnPrefix name`. -/
def collectNNs (conf : HadoopConf) (name : String) : List String :=
  ((conf.filter fun kv => hasPrefix kv.1 (nnPrefix name)).map Prod.snd).dedup

/-- Lines 90–107 of `conf.go`: collect the matching namenode addresses
into the set `nns`, fail with `errUnresolvedNamenode` when it is empty,
otherwise return its members sorted (`sort.Strings`).  The state is not
written in this part. -/
def namenodesLookup (s : ConfState) (defaultFsName : String) :
    ConfState × Except NNError (List String) :=
  let nns := collectNNs s.conf defaultFsName
  if nns = [] then
    (s, Except.error NNError.unresolvedNamenode)
  else
    (s, Except.ok (nns.insertionSort StrLeR))

/-- `(conf HadoopConf) Namenodes(givenFS string)` from `conf.go`, as a
state transformer over `ConfState`.  Note that in the source the local
variable `defaultFsName` is assigned only in the `givenFS == ""` branch;
in the `else` branch the package variable `defaultFS` is set to `givenFS`
but `defaultFsName` keeps its zero value `""`, and the lookup prefix is
built from `defaultFsName`. -/
def Namenodes (s : ConfState) (givenFS : String) :
    ConfState × Except NNError (List String) :=
  if givenFS = "" then
    let defaultFsName := scanDefaultFS s.conf
    if defaultFsName = "" then
      (s, Except.error NNError.unresolvedDefaultFS)
    else
      namenodesLookup { s with defaultFS := defaultFsName } defaultFsName
  else
    namenodesLookup { s with defaultFS := givenFS } ""

/-- `GetDefaultFS` from `conf.go`. -/
def GetDefaultFS (s : ConfState) : String :=
  s.defaultFS

/-- The configuration of the spec's §8 test scenario: `fs.defaultFS =
hdfs://clusterA` with two namenode addresses for `clusterA`. -/
def exConf : HadoopConf :=
  [("fs.defaultFS", "hdfs://clusterA"),
   ("dfs.namenode.rpc-address.clusterA.nn1", "host1:8020"),
   ("dfs.namenode.rpc-address.clusterA.nn2", "host2:8020")]

/-- A second configuration for exercising the collection stage:
three keys under cluster `c`, two of them holding the same address. -/
def exConfCollect : HadoopConf :=
  [("dfs.namenode.rpc-address.c.nn1", "host2:8020"),
   ("dfs.namenode.rpc-address.c.nn2", "host1:8020"),
   ("dfs.namenode.rpc-address.c.nn3", "host1:8020")]

/-- The value a parsed file assigns to key `k` once all its properties
have been inserted in order: the value of the last property named `k`,
or `none` when the file does not define `k`. -/
def lastValue (props : List Property) (k : String) : Option String :=
  match props with
  | [] => none
  | p :: ps =>
    match lastValue ps k with
    | some v => some v
    | none => if p.name = k then some p.value else none

/-- Example parsed file contents: a core-settings file and an
hdfs-settings file that both define the key `k`. -/
def exCoreProps : List Property :=
  [⟨"k", "core"⟩, ⟨"other", "1"⟩]

def exHdfsProps : List Property :=
  [⟨"k", "hdfs"⟩]

/-! ## The sort order is total and transitive -/

theorem charListLe_total : ∀ as bs : List Char,
    charListLe as bs = true ∨ charListLe bs as = true
  | [], _ => Or.inl rfl
  | _ :: _, [] => Or.inr rfl
  | a :: as, b :: bs => by
    by_cases h : a.toNat = b.toNat
    · have h' : b.toNat = a.toNat := h.symm
      simp only [charListLe, if_pos h, if_pos h']
      exact charListLe_total as bs
    · have h' : b.toNat ≠ a.toNat := fun e => h e.symm
      rcases Nat.lt_or_ge a.toNat b.toNat with hlt | hge
      · left
        simp only [charListLe, if_neg h]
        exact decide_eq_true hlt
      · right
        have hba : b.toNat < a.toNat := Nat.lt_of_le_of_ne hge h'
        simp only [charListLe, if_neg h']
        exact decide_eq_true hba

theorem charListLe_trans : ∀ as bs cs : List Char,
    charListLe as bs = true → charListLe bs cs = true → charListLe as cs = true
  | [], _, _ => fun _ _ => rfl
  | _ :: _, [], _ => by
    intro h _
    simp [charListLe] at h
  | _ :: _, _ :: _, [] => by
    intro _ h
    simp [charListLe] at h
  | a :: as, b :: bs, c :: cs => by
    intro h1 h2
    by_cases hab : a.toNat = b.toNat <;> by_cases hbc : b.toNat = c.toNat
    · have hac : a.toNat = c.toNat := hab.trans hbc
      simp only [charListLe, if_pos hab] at h1
      simp only [charListLe, if_pos hbc] at h2
      simp only [charListLe, if_pos hac]
      exact charListLe_trans as bs cs h1 h2
    · simp only [charListLe, if_neg hbc] at h2
      have h2' : b.toNat < c.toNat := of_decide_eq_true h2
      have hac : a.toNat < c.toNat := hab ▸ h2'
      simp only [charListLe, if_neg (Nat.ne_of_lt hac)]
      exact decide_eq_true hac
    · simp only [charListLe, if_neg hab] at h1
      have h1' : a.toNat < b.toNat := of_decide_eq_true h1
      have hac : a.toNat < c.toNat := hbc ▸ h1'
      simp only [charListLe, if_neg (Nat.ne_of_lt hac)]
      exact decide_eq_true hac
    · simp only [charListLe, if_neg hab] at h1
      simp only [charListLe, if_neg hbc] at h2
      have hac : a.toNat < c.toNat :=
        Nat.lt_trans (of_decide_eq_true h1) (of_decide_eq_true h2)
      simp only [charListLe, if_neg (Nat.ne_of_lt hac)]
      exact decide_eq_true hac

instance : IsTotal String StrLeR :=
  ⟨fun a b => charListLe_total a.data b.data⟩

instance : IsTrans String StrLeR :=
  ⟨fun a b c => charListLe_trans a.data b.data c.data⟩

/-! ## Lemmas about the namenode set -/

/-- Membership in the collected set `nns`: exactly the values of the
entries whose key starts with the lookup prefix. -/
theorem mem_collectNNs {conf : HadoopConf} {name v : String} :
    v ∈ collectNNs conf name ↔
      ∃ kv ∈ conf, hasPrefix kv.1 (nnPrefix name) = true ∧ kv.2 = v := by
  unfold collectNNs
  simp only [List.mem_dedup, List.mem_map, List.mem_filter]
  tauto

/-- The collected set is empty exactly when no key starts with the
lookup prefix. -/
theorem collectNNs_eq_nil_iff {conf : HadoopConf} {name : String} :
    collectNNs conf name = [] ↔
      ∀ kv ∈ conf, hasPrefix kv.1 (nnPrefix name) = false := by
  rw [List.eq_nil_iff_forall_not_mem]
  constructor
  · intro h kv hm
    by_contra hb
    exact h kv.2 (mem_collectNNs.mpr ⟨kv, hm, by simpa using hb, rfl⟩)
  · intro h v hv
    obtain ⟨kv, hm, hp, _⟩ := mem_collectNNs.mp hv
    rw [h kv hm] at hp
    cases hp

theorem collectNNs_nodup (conf : HadoopConf) (name : String) :
    (collectNNs conf name).Nodup :=
  List.nodup_dedup _

/-- `namenodesLookup` never writes the state. -/
theorem namenodesLookup_fst (s : ConfState) (n : String) :
    (namenodesLookup s n).1 = s := by
  unfold namenodesLookup
  by_cases hc : collectNNs s.conf n = [] <;> simp [hc]

/-! ## Lemmas about the `fs.defaultFS` scan -/

/-- The scan loop of `Namenodes`, run from an arbitrary accumulator,
computes the stripped value of the last `fs.defaultFS` entry, or keeps
the accumulator when there is none. -/
theorem foldl_scan_eq (conf : HadoopConf) (a : String) :
    conf.foldl
      (fun acc kv => if kv.1 = "fs.defaultFS" then trimPrefix kv.2 "hdfs://" else acc) a =
      (match lookupConf conf "fs.defaultFS" with
       | some v => trimPrefix v "hdfs://"
       | none => a) := by
  induction conf generalizing a with
  | nil => rfl
  | cons kv rest ih =>
    simp only [List.foldl_cons, lookupConf]
    rw [ih]
    cases h : lookupConf rest "fs.defaultFS" with
    | some v => rfl
    | none => by_cases hk : kv.1 = "fs.defaultFS" <;> simp [hk]

/-- `scanDefaultFS` in terms of map lookup. -/
theorem scanDefaultFS_eq (conf : HadoopConf) :
    scanDefaultFS conf =
      (match lookupConf conf "fs.defaultFS" with
       | some v => trimPrefix v "hdfs://"
       | none => "") :=
  foldl_scan_eq conf ""

/-- A key held by no entry looks up to `none`. -/
theorem lookupConf_eq_none (conf : HadoopConf) (k : String)
    (h : ∀ kv ∈ conf, kv.1 ≠ k) : lookupConf conf k = none := by
  induction conf with
  | nil => rfl
  | cons kv rest ih =>
    have hk : kv.1 ≠ k := h kv (List.mem_cons_self kv rest)
    have hrest := ih fun kv hm => h kv (List.mem_cons_of_mem _ hm)
    simp [lookupConf, hrest, hk]

/-! ## The claims about `Namenodes` -/

/-- Claim C2: for every configuration and every cluster name reaching the
collection stage of `Namenodes` (lines 90–107 of `conf.go`, shared by
both branches), the call fails with `unresolvedNamenode` exactly when no
key of the configuration starts with
`dfs.namenode.rpc-address.<clusterName>.`, and otherwise returns exactly
the distinct matching values — each value present iff some key with the
prefix maps to it — without duplicates, sorted in ascending
lexicographic string order. -/
theorem claim_C2_collect_dedup_sort (s : ConfState) (name : String) :
    ((namenodesLookup s name).2 = Except.error NNError.unresolvedNamenode ↔
      ∀ kv ∈ s.conf, hasPrefix kv.1 (nnPrefix name) = false) ∧
    ∀ l, (namenodesLookup s name).2 = Except.ok l →
      List.Sorted StrLeR l ∧ l.Nodup ∧
      ∀ v, (v ∈ l ↔
        ∃ kv ∈ s.conf, hasPrefix kv.1 (nnPrefix name) = true ∧ kv.2 = v) := by
  constructor
  · rw [← @collectNNs_eq_nil_iff s.conf name]
    unfold namenodesLookup
    by_cases h : collectNNs s.conf name = [] <;> simp [h]
  · intro l hl
    unfold namenodesLookup at hl
    by_cases h : collectNNs s.conf name = []
    · simp [h] at hl
    · simp only [if_neg h] at hl
      have hperm := List.perm_insertionSort StrLeR (collectNNs s.conf name)
      have hl' : (collectNNs s.conf name).insertionSort StrLeR = l := by
        simpa using hl
      subst hl'
      refine ⟨List.sorted_insertionSort StrLeR _, ?_, ?_⟩
      · exact hperm.nodup_iff.mpr (collectNNs_nodup s.conf name)
      · intro v
        rw [hperm.mem_iff]
        exact mem_collectNNs

theorem claim_C2_collect_dedup_sort_witness :
    List.Sorted StrLeR ["host1:8020", "host2:8020"] ∧
    ["host1:8020", "host2:8020"].Nodup ∧
    ∀ v, (v ∈ ["host1:8020", "host2:8020"] ↔
      ∃ kv ∈ exConfCollect, hasPrefix kv.1 (nnPrefix "c") = true ∧ kv.2 = v) :=
  (claim_C2_collect_dedup_sort ⟨exConfCollect, ""⟩ "c").2
    ["host1:8020", "host2:8020"] (by rfl)

/-- Claim C1 is false of the code: with the non-empty override
`"clusterA"` on the spec's §8 configuration, `Namenodes` does not use the
override when building the lookup prefix — the local `defaultFsName`
stays `""` in that branch — so the call fails with `unresolvedNamenode`
instead of returning the address list that the no-override call returns;
only the package-level `defaultFS` receives the override. -/
theorem claim_C1_override_ignored_in_prefix :
    (Namenodes ⟨exConf, ""⟩ "clusterA").2 = Except.error NNError.unresolvedNamenode ∧
    (Namenodes ⟨exConf, ""⟩ "").2 = Except.ok ["host1:8020", "host2:8020"] ∧
    (Namenodes ⟨exConf, ""⟩ "clusterA").1.defaultFS = "clusterA" :=
  ⟨by rfl, by rfl, by rfl⟩

/-- Claim C5: with an empty override and no `fs.defaultFS` entry,
`Namenodes` fails with `unresolvedDefaultFS`. -/
theorem claim_C5_missing_defaultFS (conf : HadoopConf) (fs0 : String)
    (h : ∀ kv ∈ conf, kv.1 ≠ "fs.defaultFS") :
    (Namenodes ⟨conf, fs0⟩ "").2 = Except.error NNError.unresolvedDefaultFS := by
  have hs : scanDefaultFS conf = "" := by
    rw [scanDefaultFS_eq, lookupConf_eq_none conf _ h]
  simp [Namenodes, hs]

theorem claim_C5_missing_defaultFS_witness :
    (Namenodes ⟨[("dfs.replication", "3")], "x"⟩ "").2 =
      Except.error NNError.unresolvedDefaultFS :=
  claim_C5_missing_defaultFS [("dfs.replication", "3")] "x" (by decide)

/-- Claim C6: with an empty override and an `fs.defaultFS` entry whose
value strips (under `TrimPrefix _ "hdfs://"`) to a non-empty cluster
name, `Namenodes` continues as the namenode lookup on exactly that
stripped name, and the default-filesystem state afterwards equals the
stripped name (in particular on success). -/
theorem claim_C6_strip_and_lookup (conf : HadoopConf) (fs0 v : String)
    (h : lookupConf conf "fs.defaultFS" = some v)
    (hne : trimPrefix v "hdfs://" ≠ "") :
    Namenodes ⟨conf, fs0⟩ "" =
      namenodesLookup ⟨conf, trimPrefix v "hdfs://"⟩ (trimPrefix v "hdfs://") ∧
    (Namenodes ⟨conf, fs0⟩ "").1.defaultFS = trimPrefix v "hdfs://" := by
  have hs : scanDefaultFS conf = trimPrefix v "hdfs://" := by
    rw [scanDefaultFS_eq, h]
  have h1 : Namenodes ⟨conf, fs0⟩ "" =
      namenodesLookup ⟨conf, trimPrefix v "hdfs://"⟩ (trimPrefix v "hdfs://") := by
    simp [Namenodes, hs, hne]
  refine ⟨h1, ?_⟩
  rw [h1, namenodesLookup_fst]

theorem claim_C6_strip_and_lookup_witness :
    Namenodes ⟨exConf, ""⟩ "" =
      namenodesLookup ⟨exConf, trimPrefix "hdfs://clusterA" "hdfs://"⟩
        (trimPrefix "hdfs://clusterA" "hdfs://") ∧
    (Namenodes ⟨exConf, ""⟩ "").1.defaultFS = trimPrefix "hdfs://clusterA" "hdfs://" :=
  claim_C6_strip_and_lookup exConf "" "hdfs://clusterA" (by rfl) (by decide)

/-- Claim C7: whenever a cluster name is determined (non-empty override,
or non-empty stripped `fs.defaultFS` value), the default-filesystem
state after the call equals that value — the override when given,
otherwise the stripped value — whether the call succeeds or not. -/
theorem claim_C7_state_overwritten (conf : HadoopConf) (fs0 g : String)
    (h : g ≠ "" ∨ scanDefaultFS conf ≠ "") :
    (Namenodes ⟨conf, fs0⟩ g).1.defaultFS =
      (if g = "" then scanDefaultFS conf else g) := by
  by_cases hg : g = ""
  · subst hg
    have hs : scanDefaultFS conf ≠ "" := h.resolve_left (by simp)
    simp [Namenodes, hs, namenodesLookup_fst]
  · simp [Namenodes, hg, namenodesLookup_fst]

theorem claim_C7_state_overwritten_witness :
    (Namenodes ⟨exConf, "old"⟩ "").1.defaultFS = "clusterA" :=
  (claim_C7_state_overwritten exConf "old" "" (Or.inr (by decide))).trans (by decide)

/-- Claim C8: `Namenodes` never mutates the configuration mapping, on
success and on failure alike. -/
theorem claim_C8_conf_not_mutated (s : ConfState) (g : String) :
    (Namenodes s g).1.conf = s.conf := by
  by_cases hg : g = ""
  · subst hg
    by_cases hs : scanDefaultFS s.conf = "" <;>
      simp [Namenodes, hs, namenodesLookup_fst]
  · simp [Namenodes, hg, namenodesLookup_fst]

/-- Claim C9: a failure with `unresolvedDefaultFS` (empty override, no
usable `fs.defaultFS`) leaves the whole state untouched, while a failure
with `unresolvedNamenode` leaves the default-filesystem state already
overwritten with the determined cluster name. -/
theorem claim_C9_failure_state (s : ConfState) (g : String) :
    (g = "" → scanDefaultFS s.conf = "" →
      Namenodes s g = (s, Except.error NNError.unresolvedDefaultFS)) ∧
    ((Namenodes s g).2 = Except.error NNError.unresolvedNamenode →
      (Namenodes s g).1.defaultFS = (if g = "" then scanDefaultFS s.conf else g)) := by
  constructor
  · intro hg hs
    subst hg
    simp [Namenodes, hs]
  · intro he
    by_cases hg : g = ""
    · subst hg
      by_cases hs : scanDefaultFS s.conf = ""
      · simp [Namenodes, hs] at he
      · simp [Namenodes, hs, namenodesLookup_fst]
    · simp [Namenodes, hg, namenodesLookup_fst]

theorem claim_C9_failure_state_witness :
    Namenodes ⟨[("a", "b")], "keep"⟩ "" =
      (⟨[("a", "b")], "keep"⟩, Except.error NNError.unresolvedDefaultFS) ∧
    (Namenodes ⟨[("fs.defaultFS", "hdfs://c")], "old"⟩ "").1.defaultFS = "c" :=
  ⟨(claim_C9_failure_state ⟨[("a", "b")], "keep"⟩ "").1 rfl (by decide),
   ((claim_C9_failure_state ⟨[("fs.defaultFS", "hdfs://c")], "old"⟩ "").2
     (by rfl)).trans (by decide)⟩

/-- Claim C10: an `fs.defaultFS` entry whose value is `""` or exactly
`"hdfs://"` strips to the empty cluster name, so with an empty override
`Namenodes` fails with `unresolvedDefaultFS` exactly as when the key is
absent, leaving the state untouched. -/
theorem claim_C10_empty_stripped_value (conf : HadoopConf) (fs0 v : String)
    (h : lookupConf conf "fs.defaultFS" = some v)
    (hv : v = "" ∨ v = "hdfs://") :
    Namenodes ⟨conf, fs0⟩ "" = (⟨conf, fs0⟩, Except.error NNError.unresolvedDefaultFS) := by
  have ht : trimPrefix v "hdfs://" = "" := by
    rcases hv with rfl | rfl <;> decide
  have hs : scanDefaultFS conf = "" := by
    rw [scanDefaultFS_eq, h]
    exact ht
  simp [Namenodes, hs]

theorem claim_C10_empty_stripped_value_witness :
    Namenodes ⟨[("fs.defaultFS", "hdfs://")], "keep"⟩ "" =
      (⟨[("fs.defaultFS", "hdfs://")], "keep"⟩,
        Except.error NNError.unresolvedDefaultFS) :=
  claim_C10_empty_stripped_value [("fs.defaultFS", "hdfs://")] "keep" "hdfs://"
    (by rfl) (Or.inr rfl)

/-! ## Lemmas about map insertion and file loading -/

/-- Map lookup distributes over list append, with the right part
shadowing the left. -/
theorem lookupConf_append (m l : HadoopConf) (k : String) :
    lookupConf (m ++ l) k =
      (match lookupConf l k with
       | some v => some v
       | none => lookupConf m k) := by
  induction m with
  | nil => cases h : lookupConf l k <;> simp [lookupConf, h]
  | cons kv rest ih =>
    show (match lookupConf (rest ++ l) k with
          | some v => some v
          | none => if kv.1 = k then some kv.2 else none) = _
    rw [ih]
    cases h : lookupConf l k <;> rfl

/-- Replacing the entries of a key no entry holds changes nothing. -/
theorem map_replace_id (m : HadoopConf) (k v : String)
    (h : ∀ kv ∈ m, kv.1 ≠ k) :
    List.map (fun kv => if kv.1 = k then (k, v) else kv) m = m := by
  induction m with
  | nil => rfl
  | cons kv rest ih =>
    have hk := h kv (List.mem_cons_self kv rest)
    simp only [List.map_cons, if_neg hk]
    rw [ih fun x hx => h x (List.mem_cons_of_mem _ hx)]

/-- After an in-place replacement of the entries holding key `k`, the
key looks up to the new value (given some entry held it). -/
theorem lookup_map_replace_self (m : HadoopConf) (k v : String)
    (h : List.any m (fun kv => kv.1 = k) = true) :
    lookupConf (List.map (fun kv => if kv.1 = k then (k, v) else kv) m) k = some v := by
  induction m with
  | nil => simp at h
  | cons kv rest ih =>
    by_cases hr : List.any rest (fun kv => kv.1 = k) = true
    · have hrl := ih hr
      simp only [List.map_cons, lookupConf, hrl]
    · have hrest : ∀ x ∈ rest, x.1 ≠ k := by
        intro x hx he
        exact hr (List.any_eq_true.mpr ⟨x, hx, by simp [he]⟩)
      have hkv : kv.1 = k := by
        rcases List.any_eq_true.mp h with ⟨x, hx, hp⟩
        rcases List.mem_cons.mp hx with rfl | hx'
        · exact of_decide_eq_true hp
        · exact absurd (List.any_eq_true.mpr ⟨x, hx', hp⟩) hr
      have hmap := map_replace_id rest k v hrest
      simp only [List.map_cons, if_pos hkv, lookupConf, hmap,
        lookupConf_eq_none rest k hrest]
      simp

/-- The in-place replacement of key `k` does not affect other keys. -/
theorem lookup_map_replace_ne (m : HadoopConf) (k v k' : String) (hk : k' ≠ k) :
    lookupConf (List.map (fun kv => if kv.1 = k then (k, v) else kv) m) k' =
      lookupConf m k' := by
  induction m with
  | nil => rfl
  | cons kv rest ih =>
    simp only [List.map_cons, lookupConf, ih]
    cases h : lookupConf rest k' with
    | some v' => rfl
    | none =>
      by_cases hkv : kv.1 = k
      · rw [if_pos hkv]
        have h1 : ((k, v) : String × String).1 ≠ k' := fun e => hk e.symm
        have h2 : kv.1 ≠ k' := fun e => hk (hkv ▸ e.symm)
        simp [h1, h2]
      · rw [if_neg hkv]

/-- The Go map assignment: lookup after `mapInsert` returns the new
value at the written key and is unchanged elsewhere. -/
theorem lookupConf_mapInsert (m : HadoopConf) (k v k' : String) :
    lookupConf (mapInsert m k v) k' =
      (if k' = k then some v else lookupConf m k') := by
  unfold mapInsert
  by_cases hany : List.any m (fun kv => kv.1 = k) = true
  · rw [if_pos hany]
    by_cases hk : k' = k
    · subst hk
      rw [if_pos rfl]
      exact lookup_map_replace_self m k' v hany
    · rw [if_neg hk]
      exact lookup_map_replace_ne m k v k' hk
  · rw [if_neg hany, lookupConf_append]
    by_cases hk : k' = k
    · subst hk
      simp [lookupConf]
    · have h1 : lookupConf [(k, v)] k' = none := by
        have : k ≠ k' := fun e => hk e.symm
        simp [lookupConf, this]
      rw [h1, if_neg hk]

/-- Folding a parsed property list into a configuration: a key defined
by the list receives the last value the list assigns to it; other keys
keep their previous binding. -/
theorem lookupConf_loadProps (props : List Property) (m : HadoopConf) (k : String) :
    lookupConf (loadProps m props) k =
      (match lastValue props k with
       | some v => some v
       | none => lookupConf m k) := by
  induction props generalizing m with
  | nil => rfl
  | cons p ps ih =>
    show lookupConf (loadProps (mapInsert m p.name p.value) ps) k = _
    rw [ih]
    cases h : lastValue ps k with
    | some v => simp [lastValue, h]
    | none =>
      rw [lookupConf_mapInsert]
      simp only [lastValue, h]
      by_cases hk : p.name = k
      · simp [hk]
      · have hk' : k ≠ p.name := fun e => hk e.symm
        simp [hk, hk']

/-! ## The claims about `LoadHadoopConf` -/

/-- Claim C3: loading never fails; a file that cannot be read or parsed
(`none`) contributes exactly nothing — the result is the same as for a
parsable file with no properties — and when neither file contributes the
result is the empty configuration. -/
theorem claim_C3_load_never_fails (core hdfs : Option (List Property)) :
    LoadHadoopConf none none = [] ∧
    LoadHadoopConf none hdfs = LoadHadoopConf (some []) hdfs ∧
    LoadHadoopConf core none = LoadHadoopConf core (some []) :=
  ⟨rfl, rfl, rfl⟩

/-- Claim C4: when both files parse and both define a key, the loaded
configuration maps the key to the hdfs-site value, because the hdfs-site
file is folded in after the core-site file and each property overwrites
the existing entry for its key. -/
theorem claim_C4_hdfs_site_wins (coreProps hdfsProps : List Property) (k v : String)
    (_hcore : lastValue coreProps k ≠ none)
    (hhdfs : lastValue hdfsProps k = some v) :
    lookupConf (LoadHadoopConf (some coreProps) (some hdfsProps)) k = some v := by
  show lookupConf (loadProps (loadProps [] coreProps) hdfsProps) k = some v
  rw [lookupConf_loadProps, hhdfs]

theorem claim_C4_hdfs_site_wins_witness :
    lookupConf (LoadHadoopConf (some exCoreProps) (some exHdfsProps)) "k" =
      some "hdfs" :=
  claim_C4_hdfs_site_wins exCoreProps exHdfsProps "k" "hdfs" (by decide) (by rfl)
